import Mathlib

/-!
# Verification of the plastic_net coordinate-descent solvers

A shallow embedding of the `plastic_net` repository: penalized linear
regression by cyclic coordinate descent, generalizing the elastic net so
that the L1 and L2 penalties pull coefficients toward arbitrary target
vectors.  Vectors are `List ℚ` (exact rational arithmetic in place of
IEEE doubles), the design matrix is a list of rows, and the in-place
numpy buffer mutation of the source is modelled by explicit state
passing through a `SolveState` record.

The wrapper class `Regression` (classes/regression.py) is translated
from the source.  The solver bodies (solvers/in_place.py and
solvers/functional.py) are not part of the provided sources; they are
modelled from the specification, as marked on each definition.
-/

namespace PlasticNet

/-- Dot product of two rational vectors, truncating at the shorter list
(numpy `np.dot` on equal-length vectors; the truncation is irrelevant at
the shapes the solvers use). -/
def dot : List ℚ → List ℚ → ℚ
  | [], _ => 0
  | _ :: _, [] => 0
  | a :: as, b :: bs => a * b + dot as bs

/-- Squared euclidean norm `v · v`. -/
def normSq (v : List ℚ) : ℚ := dot v v

/-- Elementwise vector subtraction (numpy `a - b`). -/
def vsub (a b : List ℚ) : List ℚ := List.zipWith (fun x z => x - z) a b

/-- Elementwise vector addition (numpy `a + b`). -/
def vadd (a b : List ℚ) : List ℚ := List.zipWith (fun x z => x + z) a b

/-- Column `j` of the design matrix, `X[:, j]`. -/
def col (X : List (List ℚ)) (j : ℕ) : List ℚ :=
  X.map (fun row => row.getD j 0)

/-- Matrix-vector product `np.dot(X, b)`: one dot product per row. -/
def matVec (X : List (List ℚ)) (b : List ℚ) : List ℚ :=
  X.map (fun row => dot row b)

/-- The number of columns `D` of the design matrix (`X.shape[1]`). -/
def numCols (X : List (List ℚ)) : ℕ := (X.headD []).length

/-- The zero vector of length `D` (`np.zeros(D)`). -/
def zeros (D : ℕ) : List ℚ := List.replicate D (0 : ℚ)

/-- The sign of a rational number: 1, -1 or 0. -/
def sgn (v : ℚ) : ℚ := if 0 < v then 1 else if v < 0 then -1 else 0

/-- Modelled from the spec (glossary): soft-thresholding
`sign(v) * max(|v| - lam, 0)`, the closed-form solution to
one-dimensional L1-penalized least squares.  The shared numeric utility
of solvers/in_place.py, which is not among the provided sources. -/
def soft_threshold (lam v : ℚ) : ℚ := sgn v * max (|v| - lam) 0

/-- Modelled from the spec (section 4.1): the coordinate update kernel of
solvers/in_place.py, which is not among the provided sources.  Given the
column `xj = X[:, j]`, the maintained residual `r`, and the current
coefficient `bj`, it forms `rho = xj . r + bj * (xj . xj)` (the partial
correlation as if coefficient j were reset to zero), shifts the
unpenalized update by the L2 target scaled by `lam2`, applies
soft-thresholding with threshold `lam1` centered at the L1 target
(in pre-division units), and divides by `xj . xj + lam2`.  In the
degenerate case `xj . xj + lam2 = 0` the coordinate is held at its
target instead of dividing by zero. -/
def coordinate_update (lam1 lam2 xij zetaj : ℚ) (xj r : List ℚ) (bj : ℚ) : ℚ :=
  let sq := dot xj xj
  let rho := dot xj r + bj * sq
  let denom := sq + lam2
  if denom = 0 then zetaj
  else (xij * denom + soft_threshold lam1 (rho + lam2 * zetaj - xij * denom)) / denom

/-- The mutable solver state: the coefficient buffer `beta` and the
residual buffer `r` that the in-place solvers update. -/
structure SolveState where
  beta : List ℚ
  r : List ℚ
deriving DecidableEq

/-- Modelled from the spec (sections 4.1 and 4.2): one single-coordinate
step of the solvers in solvers/in_place.py (not among the provided
sources): compute the new coefficient via the kernel, update the
residual incrementally by `r <- r - X[:,j] * (bnew - bold)`, commit the
coefficient, and report the absolute coefficient change. -/
def coord_step (X : List (List ℚ)) (lam1 lam2 : ℚ) (xi zeta : List ℚ)
    (s : SolveState) (j : ℕ) : SolveState × ℚ :=
  let bold := s.beta.getD j 0
  let bnew := coordinate_update lam1 lam2 (xi.getD j 0) (zeta.getD j 0) (col X j) s.r bold
  let rnew := List.zipWith (fun xv rv => rv - (bnew - bold) * xv) (col X j) s.r
  (⟨s.beta.set j bnew, rnew⟩, |bnew - bold|)

/-- Folding step of one pass: apply the coordinate step at index `j` and
accumulate the maximum absolute coefficient change. -/
def passStep (X : List (List ℚ)) (lam1 lam2 : ℚ) (xi zeta : List ℚ)
    (acc : SolveState × ℚ) (j : ℕ) : SolveState × ℚ :=
  let q := coord_step X lam1 lam2 xi zeta acc.1 j
  (q.1, max acc.2 q.2)

/-- Modelled from the spec (sections 4.3 and 4.4): one full pass over all
`D` coordinates in index order 0..D-1, returning the updated state and
the maximum absolute coefficient change `max_delta` of the pass. -/
def one_pass (X : List (List ℚ)) (lam1 lam2 : ℚ) (xi zeta : List ℚ)
    (s : SolveState) : SolveState × ℚ :=
  (List.range (numCols X)).foldl (passStep X lam1 lam2 xi zeta) (s, 0)

/-- Modelled from the spec (section 4.3): the convergence monitor loop.
While fuel (the remaining pass budget) lasts, perform one pass; stop
with `converged = true` as soon as a pass's `max_delta` falls below
`tol`, otherwise stop with `converged = false` once `max_iter` passes
have completed.  `done` counts already completed passes; the returned
number is the total number of completed passes. -/
def loopGo {σ : Type} (step : σ → σ × ℚ) (tol : ℚ) : ℕ → σ → ℕ → Bool × ℕ × σ
  | 0, s, done => (false, done, s)
  | fuel + 1, s, done =>
      if (step s).2 < tol then (true, done + 1, (step s).1)
      else loopGo step tol fuel (step s).1 (done + 1)

/-- Modelled from the spec (section 4.4): the orchestration loop shared
by all in-place solvers, parametrized by the penalty weights and the
target vectors. -/
def cd_run (X : List (List ℚ)) (lam1 lam2 : ℚ) (xi zeta : List ℚ)
    (tol : ℚ) (max_iter : ℕ) (s : SolveState) : Bool × ℕ × SolveState :=
  loopGo (one_pass X lam1 lam2 xi zeta) tol max_iter s 0

/-- Modelled from the spec (table in section 4.1): in-place general
plastic net, `lam1 = alpha * lambda_total`, `lam2 = (1 - alpha) *
lambda_total`, targets `xi` and `zeta`. -/
def general_plastic_net_ (beta r : List ℚ) (X : List (List ℚ)) (xi zeta : List ℚ)
    (lambda_total alpha tol : ℚ) (max_iter : ℕ) : Bool × ℕ × SolveState :=
  cd_run X (alpha * lambda_total) ((1 - alpha) * lambda_total) xi zeta tol max_iter ⟨beta, r⟩

/-- Modelled from the spec (table in section 4.1): in-place OLS,
both penalties zero, both targets zero. -/
def ordinary_least_squares_ (beta r : List ℚ) (X : List (List ℚ))
    (tol : ℚ) (max_iter : ℕ) : Bool × ℕ × SolveState :=
  cd_run X 0 0 (zeros (numCols X)) (zeros (numCols X)) tol max_iter ⟨beta, r⟩

/-- Modelled from the spec (table in section 4.1): in-place ridge,
`lam1 = 0`, `lam2 = lambda_total`, targets zero. -/
def ridge_ (beta r : List ℚ) (X : List (List ℚ)) (lambda_total tol : ℚ)
    (max_iter : ℕ) : Bool × ℕ × SolveState :=
  cd_run X 0 lambda_total (zeros (numCols X)) (zeros (numCols X)) tol max_iter ⟨beta, r⟩

/-- Modelled from the spec (table in section 4.1): in-place lasso,
`lam1 = lambda_total`, `lam2 = 0`, targets zero. -/
def lasso_ (beta r : List ℚ) (X : List (List ℚ)) (lambda_total tol : ℚ)
    (max_iter : ℕ) : Bool × ℕ × SolveState :=
  cd_run X lambda_total 0 (zeros (numCols X)) (zeros (numCols X)) tol max_iter ⟨beta, r⟩

/-- Modelled from the spec (table in section 4.1): in-place elastic net,
`lam1 = alpha * lambda_total`, `lam2 = (1 - alpha) * lambda_total`,
targets zero. -/
def elastic_net_ (beta r : List ℚ) (X : List (List ℚ)) (lambda_total alpha tol : ℚ)
    (max_iter : ℕ) : Bool × ℕ × SolveState :=
  cd_run X (alpha * lambda_total) ((1 - alpha) * lambda_total)
    (zeros (numCols X)) (zeros (numCols X)) tol max_iter ⟨beta, r⟩

/-- Modelled from the spec (table in section 4.1): in-place plastic
ridge, `lam1 = 0`, `lam2 = lambda_total`, L1 target zero, L2 target
`zeta`. -/
def plastic_ridge_ (beta r : List ℚ) (X : List (List ℚ)) (zeta : List ℚ)
    (lambda_total tol : ℚ) (max_iter : ℕ) : Bool × ℕ × SolveState :=
  cd_run X 0 lambda_total (zeros (numCols X)) zeta tol max_iter ⟨beta, r⟩

/-- Modelled from the spec (table in section 4.1): in-place plastic
lasso, `lam1 = lambda_total`, `lam2 = 0`, L1 target `xi`, L2 target
zero. -/
def plastic_lasso_ (beta r : List ℚ) (X : List (List ℚ)) (xi : List ℚ)
    (lambda_total tol : ℚ) (max_iter : ℕ) : Bool × ℕ × SolveState :=
  cd_run X lambda_total 0 xi (zeros (numCols X)) tol max_iter ⟨beta, r⟩

/-- Modelled from the spec (table in section 4.1): in-place hard plastic
net, elastic-net penalty mix, L1 target `xi`, L2 target zero. -/
def hard_plastic_net_ (beta r : List ℚ) (X : List (List ℚ)) (xi : List ℚ)
    (lambda_total alpha tol : ℚ) (max_iter : ℕ) : Bool × ℕ × SolveState :=
  cd_run X (alpha * lambda_total) ((1 - alpha) * lambda_total)
    xi (zeros (numCols X)) tol max_iter ⟨beta, r⟩

/-- Modelled from the spec (table in section 4.1): in-place soft plastic
net, elastic-net penalty mix, L1 target zero, L2 target `zeta`. -/
def soft_plastic_net_ (beta r : List ℚ) (X : List (List ℚ)) (zeta : List ℚ)
    (lambda_total alpha tol : ℚ) (max_iter : ℕ) : Bool × ℕ × SolveState :=
  cd_run X (alpha * lambda_total) ((1 - alpha) * lambda_total)
    (zeros (numCols X)) zeta tol max_iter ⟨beta, r⟩

/-- Modelled from the spec (table in section 4.1): in-place unified
plastic net, elastic-net penalty mix, with the single caller-supplied
vector `xi` reused as both the L1 and the L2 target. -/
def unified_plastic_net_ (beta r : List ℚ) (X : List (List ℚ)) (xi : List ℚ)
    (lambda_total alpha tol : ℚ) (max_iter : ℕ) : Bool × ℕ × SolveState :=
  cd_run X (alpha * lambda_total) ((1 - alpha) * lambda_total)
    xi xi tol max_iter ⟨beta, r⟩

/-- Modelled from the spec (section 4.4): functional OLS of
solvers/functional.py (not among the provided sources) - allocate a zero
coefficient vector and a residual initialized to `y`, delegate to the
in-place form, and return the coefficient vector alone. -/
def ordinary_least_squares (X : List (List ℚ)) (y : List ℚ) (tol : ℚ)
    (max_iter : ℕ) : List ℚ :=
  (ordinary_least_squares_ (zeros (numCols X)) y X tol max_iter).2.2.beta

/-- Modelled from the spec (section 4.4): functional ridge. -/
def ridge (X : List (List ℚ)) (y : List ℚ) (lambda_total tol : ℚ)
    (max_iter : ℕ) : List ℚ :=
  (ridge_ (zeros (numCols X)) y X lambda_total tol max_iter).2.2.beta

/-- Modelled from the spec (section 4.4): functional lasso. -/
def lasso (X : List (List ℚ)) (y : List ℚ) (lambda_total tol : ℚ)
    (max_iter : ℕ) : List ℚ :=
  (lasso_ (zeros (numCols X)) y X lambda_total tol max_iter).2.2.beta

/-- Modelled from the spec (section 4.4): functional elastic net. -/
def elastic_net (X : List (List ℚ)) (y : List ℚ) (lambda_total alpha tol : ℚ)
    (max_iter : ℕ) : List ℚ :=
  (elastic_net_ (zeros (numCols X)) y X lambda_total alpha tol max_iter).2.2.beta

/-- Modelled from the spec (section 4.4): functional general plastic
net. -/
def general_plastic_net (X : List (List ℚ)) (y : List ℚ) (xi zeta : List ℚ)
    (lambda_total alpha tol : ℚ) (max_iter : ℕ) : List ℚ :=
  (general_plastic_net_ (zeros (numCols X)) y X xi zeta lambda_total alpha tol max_iter).2.2.beta

/-- Modelled from the spec (section 4.4): functional plastic ridge. -/
def plastic_ridge (X : List (List ℚ)) (y : List ℚ) (zeta : List ℚ)
    (lambda_total tol : ℚ) (max_iter : ℕ) : List ℚ :=
  (plastic_ridge_ (zeros (numCols X)) y X zeta lambda_total tol max_iter).2.2.beta

/-- Modelled from the spec (section 4.4): functional plastic lasso. -/
def plastic_lasso (X : List (List ℚ)) (y : List ℚ) (xi : List ℚ)
    (lambda_total tol : ℚ) (max_iter : ℕ) : List ℚ :=
  (plastic_lasso_ (zeros (numCols X)) y X xi lambda_total tol max_iter).2.2.beta

/-- Modelled from the spec (section 4.4): functional hard plastic net. -/
def hard_plastic_net (X : List (List ℚ)) (y : List ℚ) (xi : List ℚ)
    (lambda_total alpha tol : ℚ) (max_iter : ℕ) : List ℚ :=
  (hard_plastic_net_ (zeros (numCols X)) y X xi lambda_total alpha tol max_iter).2.2.beta

/-- Modelled from the spec (section 4.4): functional soft plastic net. -/
def soft_plastic_net (X : List (List ℚ)) (y : List ℚ) (zeta : List ℚ)
    (lambda_total alpha tol : ℚ) (max_iter : ℕ) : List ℚ :=
  (soft_plastic_net_ (zeros (numCols X)) y X zeta lambda_total alpha tol max_iter).2.2.beta

/-- Modelled from the spec (section 4.4): functional unified plastic
net. -/
def unified_plastic_net (X : List (List ℚ)) (y : List ℚ) (xi : List ℚ)
    (lambda_total alpha tol : ℚ) (max_iter : ℕ) : List ℚ :=
  (unified_plastic_net_ (zeros (numCols X)) y X xi lambda_total alpha tol max_iter).2.2.beta

/-- The ten named solver entry points of solvers/in_place.py and
solvers/functional.py, used to quantify over every solver variant. -/
inductive Variant where
  | ols
  | ridgeV
  | lassoV
  | elasticNetV
  | generalPN
  | plasticRidgeV
  | plasticLassoV
  | hardPN
  | softPN
  | unifiedPN
deriving DecidableEq

/-- Dispatch to the in-place solver of a variant.  Variants that take no
penalty mix, or no targets, simply ignore the corresponding arguments,
mirroring the narrower signatures of the source entry points. -/
def runInPlace (v : Variant) (beta r : List ℚ) (X : List (List ℚ)) (xi zeta : List ℚ)
    (lambda_total alpha tol : ℚ) (max_iter : ℕ) : Bool × ℕ × SolveState :=
  match v with
  | .ols => ordinary_least_squares_ beta r X tol max_iter
  | .ridgeV => ridge_ beta r X lambda_total tol max_iter
  | .lassoV => lasso_ beta r X lambda_total tol max_iter
  | .elasticNetV => elastic_net_ beta r X lambda_total alpha tol max_iter
  | .generalPN => general_plastic_net_ beta r X xi zeta lambda_total alpha tol max_iter
  | .plasticRidgeV => plastic_ridge_ beta r X zeta lambda_total tol max_iter
  | .plasticLassoV => plastic_lasso_ beta r X xi lambda_total tol max_iter
  | .hardPN => hard_plastic_net_ beta r X xi lambda_total alpha tol max_iter
  | .softPN => soft_plastic_net_ beta r X zeta lambda_total alpha tol max_iter
  | .unifiedPN => unified_plastic_net_ beta r X xi lambda_total alpha tol max_iter

/-- Dispatch to the functional solver of a variant. -/
def runFunctional (v : Variant) (X : List (List ℚ)) (y : List ℚ) (xi zeta : List ℚ)
    (lambda_total alpha tol : ℚ) (max_iter : ℕ) : List ℚ :=
  match v with
  | .ols => ordinary_least_squares X y tol max_iter
  | .ridgeV => ridge X y lambda_total tol max_iter
  | .lassoV => lasso X y lambda_total tol max_iter
  | .elasticNetV => elastic_net X y lambda_total alpha tol max_iter
  | .generalPN => general_plastic_net X y xi zeta lambda_total alpha tol max_iter
  | .plasticRidgeV => plastic_ridge X y zeta lambda_total tol max_iter
  | .plasticLassoV => plastic_lasso X y xi lambda_total tol max_iter
  | .hardPN => hard_plastic_net X y xi lambda_total alpha tol max_iter
  | .softPN => soft_plastic_net X y zeta lambda_total alpha tol max_iter
  | .unifiedPN => unified_plastic_net X y xi lambda_total alpha tol max_iter

/-- The penalty weights and effective targets each variant fixes in the
general kernel (the table in spec section 4.1). -/
def variantParams (v : Variant) (D : ℕ) (xi zeta : List ℚ)
    (lambda_total alpha : ℚ) : ℚ × ℚ × List ℚ × List ℚ :=
  match v with
  | .ols => (0, 0, zeros D, zeros D)
  | .ridgeV => (0, lambda_total, zeros D, zeros D)
  | .lassoV => (lambda_total, 0, zeros D, zeros D)
  | .elasticNetV => (alpha * lambda_total, (1 - alpha) * lambda_total, zeros D, zeros D)
  | .generalPN => (alpha * lambda_total, (1 - alpha) * lambda_total, xi, zeta)
  | .plasticRidgeV => (0, lambda_total, zeros D, zeta)
  | .plasticLassoV => (lambda_total, 0, xi, zeros D)
  | .hardPN => (alpha * lambda_total, (1 - alpha) * lambda_total, xi, zeros D)
  | .softPN => (alpha * lambda_total, (1 - alpha) * lambda_total, zeros D, zeta)
  | .unifiedPN => (alpha * lambda_total, (1 - alpha) * lambda_total, xi, xi)

/-- The pass map of a variant: one full coordinate sweep with the
variant's penalty weights and targets. -/
def variantStep (v : Variant) (X : List (List ℚ)) (xi zeta : List ℚ)
    (lambda_total alpha : ℚ) : SolveState → SolveState × ℚ :=
  fun s =>
    one_pass X (variantParams v (numCols X) xi zeta lambda_total alpha).1
      (variantParams v (numCols X) xi zeta lambda_total alpha).2.1
      (variantParams v (numCols X) xi zeta lambda_total alpha).2.2.1
      (variantParams v (numCols X) xi zeta lambda_total alpha).2.2.2 s

/-- The state reached after `n` applications of a pass map. -/
def stateAfter {σ : Type} (step : σ → σ × ℚ) (s : σ) : ℕ → σ
  | 0 => s
  | n + 1 => (step (stateAfter step s n)).1

/-- The `max_delta` reported by pass `n + 1` when iterating a pass map
from state `s` (pass indices starting at 0). -/
def passDelta {σ : Type} (step : σ → σ × ℚ) (s : σ) (n : ℕ) : ℚ :=
  (step (stateAfter step s n)).2

/-- The regression problem object of classes/regression.py: the data,
the coefficient buffer, the residual buffer, the two target vectors and
the convergence report of the last fit. -/
structure Regression where
  X : List (List ℚ)
  y : List ℚ
  beta : List ℚ
  r : List ℚ
  xi : List ℚ
  zeta : List ℚ
  converged : Bool
  iter_num : ℕ
deriving DecidableEq

/-- Constructor `Regression.__init__` (classes/regression.py): store `X` and `y`,
allocate a zero coefficient vector of length `D`, compute the residual
as `y - np.dot(X, beta)`, allocate zero targets, and initialize the
convergence report. -/
def Regression.init (X : List (List ℚ)) (y : List ℚ) : Regression :=
  { X := X
    y := y
    beta := zeros (numCols X)
    r := vsub y (matVec X (zeros (numCols X)))
    xi := zeros (numCols X)
    zeta := zeros (numCols X)
    converged := false
    iter_num := 0 }

/-- The `beta` property setter (classes/regression.py): set the
coefficient vector to the desired value while recomputing the residual
via `r = y - np.dot(X, value)`. -/
def Regression.setBeta (R : Regression) (value : List ℚ) : Regression :=
  { R with beta := value, r := vsub R.y (matVec R.X value) }

/-- Record the outcome of an in-place solver call on a `Regression`:
the solver mutated the `beta` and `r` buffers and returned
`(converged, iter_num)`. -/
def Regression.applyFit (R : Regression) (out : Bool × ℕ × SolveState) : Regression :=
  { R with converged := out.1, iter_num := out.2.1,
           beta := out.2.2.beta, r := out.2.2.r }

/-- Method `Regression.fit_ordinary_least_squares` (classes/regression.py). -/
def Regression.fit_ordinary_least_squares (R : Regression) (tol : ℚ)
    (max_iter : ℕ) : Regression :=
  R.applyFit (ordinary_least_squares_ R.beta R.r R.X tol max_iter)

/-- Method `Regression.fit_ridge` (classes/regression.py). -/
def Regression.fit_ridge (R : Regression) (lambda_total tol : ℚ)
    (max_iter : ℕ) : Regression :=
  R.applyFit (ridge_ R.beta R.r R.X lambda_total tol max_iter)

/-- Method `Regression.fit_lasso` (classes/regression.py). -/
def Regression.fit_lasso (R : Regression) (lambda_total tol : ℚ)
    (max_iter : ℕ) : Regression :=
  R.applyFit (lasso_ R.beta R.r R.X lambda_total tol max_iter)

/-- Method `Regression.fit_elastic_net` (classes/regression.py). -/
def Regression.fit_elastic_net (R : Regression) (lambda_total alpha tol : ℚ)
    (max_iter : ℕ) : Regression :=
  R.applyFit (elastic_net_ R.beta R.r R.X lambda_total alpha tol max_iter)

/-- Method `Regression.fit_general_plastic_net` (classes/regression.py):
passes `self.xi` as the L1 target and `self.zeta` as the L2 target. -/
def Regression.fit_general_plastic_net (R : Regression) (lambda_total alpha tol : ℚ)
    (max_iter : ℕ) : Regression :=
  R.applyFit (general_plastic_net_ R.beta R.r R.X R.xi R.zeta lambda_total alpha tol max_iter)

/-- Method `Regression.fit_plastic_ridge` (classes/regression.py). -/
def Regression.fit_plastic_ridge (R : Regression) (lambda_total tol : ℚ)
    (max_iter : ℕ) : Regression :=
  R.applyFit (plastic_ridge_ R.beta R.r R.X R.zeta lambda_total tol max_iter)

/-- Method `Regression.fit_plastic_lasso` (classes/regression.py). -/
def Regression.fit_plastic_lasso (R : Regression) (lambda_total tol : ℚ)
    (max_iter : ℕ) : Regression :=
  R.applyFit (plastic_lasso_ R.beta R.r R.X R.xi lambda_total tol max_iter)

/-- Method `Regression.fit_hard_plastic_net` (classes/regression.py). -/
def Regression.fit_hard_plastic_net (R : Regression) (lambda_total alpha tol : ℚ)
    (max_iter : ℕ) : Regression :=
  R.applyFit (hard_plastic_net_ R.beta R.r R.X R.xi lambda_total alpha tol max_iter)

/-- Method `Regression.fit_soft_plastic_net` (classes/regression.py). -/
def Regression.fit_soft_plastic_net (R : Regression) (lambda_total alpha tol : ℚ)
    (max_iter : ℕ) : Regression :=
  R.applyFit (soft_plastic_net_ R.beta R.r R.X R.zeta lambda_total alpha tol max_iter)

/-- Method `Regression.fit_unified_plastic_net` (classes/regression.py):
passes only `self.xi` to the solver, never `self.zeta`. -/
def Regression.fit_unified_plastic_net (R : Regression) (lambda_total alpha tol : ℚ)
    (max_iter : ℕ) : Regression :=
  R.applyFit (unified_plastic_net_ R.beta R.r R.X R.xi lambda_total alpha tol max_iter)

/-- Dispatch to the fit method of a variant (class wrapper surface). -/
def fitDispatch (v : Variant) (R : Regression) (lambda_total alpha tol : ℚ)
    (max_iter : ℕ) : Regression :=
  match v with
  | .ols => R.fit_ordinary_least_squares tol max_iter
  | .ridgeV => R.fit_ridge lambda_total tol max_iter
  | .lassoV => R.fit_lasso lambda_total tol max_iter
  | .elasticNetV => R.fit_elastic_net lambda_total alpha tol max_iter
  | .generalPN => R.fit_general_plastic_net lambda_total alpha tol max_iter
  | .plasticRidgeV => R.fit_plastic_ridge lambda_total tol max_iter
  | .plasticLassoV => R.fit_plastic_lasso lambda_total tol max_iter
  | .hardPN => R.fit_hard_plastic_net lambda_total alpha tol max_iter
  | .softPN => R.fit_soft_plastic_net lambda_total alpha tol max_iter
  | .unifiedPN => R.fit_unified_plastic_net lambda_total alpha tol max_iter

/-- The penalized least-squares objective restricted to coordinate `j`:
the value of `(1/2) * norm(y - X * beta[j := v])^2 + lam1 * |v - xij|
+ (lam2/2) * (v - zetaj)^2` as a function of the trial coefficient `v`
(spec section 4.1). -/
def objectiveAt (X : List (List ℚ)) (y b : List ℚ) (lam1 lam2 xij zetaj : ℚ)
    (j : ℕ) (v : ℚ) : ℚ :=
  (1 / 2) * normSq (vsub y (matVec X (b.set j v)))
    + lam1 * |v - xij| + (lam2 / 2) * (v - zetaj) ^ 2

/-! ## Basic list and vector lemmas -/

lemma getD_nil_zero (j : ℕ) : ([] : List ℚ).getD j 0 = 0 := by
  simp [List.getD]

lemma getD_set_self (l : List ℚ) : ∀ (j : ℕ) (v : ℚ), j < l.length →
    (l.set j v).getD j 0 = v := by
  induction l with
  | nil => intro j v h; simp at h
  | cons a as ih =>
      intro j v h
      cases j with
      | zero => rfl
      | succ n => exact ih n v (by simpa using h)

lemma getD_set_ne (l : List ℚ) : ∀ (i j : ℕ) (v : ℚ), i ≠ j →
    (l.set i v).getD j 0 = l.getD j 0 := by
  induction l with
  | nil => intro i j v _; rfl
  | cons a as ih =>
      intro i j v h
      cases i with
      | zero =>
          cases j with
          | zero => exact absurd rfl h
          | succ m => rfl
      | succ n =>
          cases j with
          | zero => rfl
          | succ m => exact ih n m v (fun he => h (by rw [he]))

lemma getD_zeros (n j : ℕ) : (zeros n).getD j 0 = 0 := by
  induction n generalizing j with
  | zero => simp [zeros, List.getD]
  | succ m ih =>
      cases j with
      | zero => rfl
      | succ k => exact ih k

lemma dot_nil_right (x : List ℚ) : dot x [] = 0 := by
  cases x <;> rfl

lemma dot_zeros_right (x : List ℚ) : ∀ n : ℕ, dot x (zeros n) = 0 := by
  induction x with
  | nil => intro n; rfl
  | cons a as ih =>
      intro n
      cases n with
      | zero => rfl
      | succ m =>
          show a * 0 + dot as (zeros m) = 0
          rw [ih m]; ring

lemma dot_eq_zero_left (x : List ℚ) : ∀ (w : List ℚ), (∀ a ∈ x, a = 0) →
    dot x w = 0 := by
  induction x with
  | nil => intro w _; rfl
  | cons a as ih =>
      intro w h
      cases w with
      | nil => rfl
      | cons b bs =>
          show a * b + dot as bs = 0
          rw [h a (by simp), ih bs (fun c hc => h c (by simp [hc]))]; ring

lemma col_length (X : List (List ℚ)) (j : ℕ) : (col X j).length = X.length := by
  simp [col]

lemma matVec_length (X : List (List ℚ)) (b : List ℚ) :
    (matVec X b).length = X.length := by
  simp [matVec]

lemma vsub_length (a b : List ℚ) : (vsub a b).length = min a.length b.length := by
  simp [vsub]

lemma vsub_matVec_zeros (X : List (List ℚ)) (D : ℕ) :
    ∀ (y : List ℚ), y.length = X.length → vsub y (matVec X (zeros D)) = y := by
  induction X with
  | nil =>
      intro y hy
      have : y = [] := List.length_eq_zero.mp hy
      simp [this, vsub, matVec]
  | cons row X' ih =>
      intro y hy
      cases y with
      | nil => simp at hy
      | cons c y' =>
          show (c - dot row (zeros D)) :: vsub y' (matVec X' (zeros D)) = c :: y'
          rw [dot_zeros_right, ih y' (by simpa using hy)]
          norm_num

/-! ## Soft-threshold value lemmas -/

lemma soft_threshold_zero_lam (v : ℚ) : soft_threshold 0 v = v := by
  unfold soft_threshold sgn
  rcases lt_trichotomy 0 v with h | h | h
  · rw [if_pos h, abs_of_pos h]
    simp [max_eq_left (le_of_lt h)]
  · simp [← h]
  · rw [if_neg (by linarith), if_pos h, abs_of_neg h]
    rw [max_eq_left (by linarith)]
    ring

lemma soft_threshold_of_gt (lam c : ℚ) (hl : 0 ≤ lam) (h : lam < c) :
    soft_threshold lam c = c - lam := by
  have hc : 0 < c := lt_of_le_of_lt hl h
  unfold soft_threshold sgn
  rw [if_pos hc, abs_of_pos hc, max_eq_left (by linarith)]
  ring

lemma soft_threshold_of_lt (lam c : ℚ) (hl : 0 ≤ lam) (h : c < -lam) :
    soft_threshold lam c = c + lam := by
  have hc : c < 0 := lt_of_lt_of_le h (by linarith)
  unfold soft_threshold sgn
  rw [if_neg (by linarith), if_pos hc, abs_of_neg hc, max_eq_left (by linarith)]
  ring

lemma soft_threshold_of_abs_le (lam c : ℚ) (h : |c| ≤ lam) :
    soft_threshold lam c = 0 := by
  unfold soft_threshold
  rw [max_eq_right (by linarith)]
  ring

/-! ## Quadratic expansion of the restricted objective -/

lemma dot_set (row : List ℚ) : ∀ (b : List ℚ) (j : ℕ) (v : ℚ), j < b.length →
    dot row (b.set j v) = dot row b + row.getD j 0 * (v - b.getD j 0) := by
  induction row with
  | nil => intro b j v _; show (0 : ℚ) = 0 + 0 * _; ring
  | cons a as ih =>
      intro b j v h
      cases b with
      | nil => simp at h
      | cons c cs =>
          cases j with
          | zero =>
              show a * v + dot as cs = (a * c + dot as cs) + a * (v - c)
              ring
          | succ n =>
              show a * c + dot as (cs.set n v)
                  = (a * c + dot as cs) + as.getD n 0 * (v - cs.getD n 0)
              rw [ih cs n v (by simpa using h)]
              ring

lemma vsub_matVec_set (X : List (List ℚ)) : ∀ (y b : List ℚ) (j : ℕ) (v : ℚ),
    j < b.length →
    vsub y (matVec X (b.set j v)) =
      List.zipWith (fun xv rv => rv - (v - b.getD j 0) * xv) (col X j)
        (vsub y (matVec X b)) := by
  induction X with
  | nil => intro y b j v _; simp [vsub, matVec, col]
  | cons row X' ih =>
      intro y b j v h
      cases y with
      | nil => simp [vsub, matVec, col]
      | cons c y' =>
          show (c - dot row (b.set j v)) :: vsub y' (matVec X' (b.set j v))
              = ((c - dot row b) - (v - b.getD j 0) * row.getD j 0)
                :: List.zipWith _ (col X' j) (vsub y' (matVec X' b))
          rw [dot_set row b j v h, ih y' b j v h]
          congr 1
          ring

lemma normSq_sub_smul : ∀ (x w : List ℚ) (c : ℚ), x.length = w.length →
    normSq (List.zipWith (fun xv rv => rv - c * xv) x w)
      = normSq w - 2 * c * dot x w + c ^ 2 * dot x x := by
  intro x
  induction x with
  | nil =>
      intro w c h
      have : w = [] := List.length_eq_zero.mp h.symm
      subst this
      show (0 : ℚ) = 0 - 2 * c * 0 + c ^ 2 * 0
      ring
  | cons a as ih =>
      intro w c h
      cases w with
      | nil => simp at h
      | cons b bs =>
          show (b - c * a) * (b - c * a) + dot (List.zipWith _ as bs) (List.zipWith _ as bs)
              = (b * b + dot bs bs) - 2 * c * (a * b + dot as bs)
                + c ^ 2 * (a * a + dot as as)
          have hih := ih bs c (by simpa using h)
          unfold normSq at hih
          rw [hih]
          ring

/-! ## The soft-threshold solves the one-dimensional problem -/

lemma soft_threshold_min (a lam c : ℚ) (ha : 0 < a) (hl : 0 ≤ lam) (u : ℚ) :
    (1 / 2) * a * (soft_threshold lam c / a) ^ 2 - c * (soft_threshold lam c / a)
        + lam * |soft_threshold lam c / a|
      ≤ (1 / 2) * a * u ^ 2 - c * u + lam * |u| := by
  have hane : a ≠ 0 := ne_of_gt ha
  by_cases hgt : lam < c
  · rw [soft_threshold_of_gt lam c hl hgt]
    set t : ℚ := (c - lam) / a with htdef
    have ht : a * t = c - lam := by field_simp [htdef]
    have htpos : 0 < t := div_pos (by linarith) ha
    rw [abs_of_pos htpos]
    have h1 : lam * u ≤ lam * |u| := mul_le_mul_of_nonneg_left (le_abs_self u) hl
    have h8 : 0 ≤ a * (u - t) ^ 2 := mul_nonneg ha.le (sq_nonneg _)
    have h9 : a * (u - t) ^ 2 = a * u ^ 2 - 2 * (a * t) * u + (a * t) * t := by ring
    rw [ht] at h9
    have e1 : (1 / 2) * a * t ^ 2 = (1 / 2) * ((a * t) * t) := by ring
    rw [ht] at e1
    nlinarith [h8, h9, h1, e1]
  · by_cases hlt : c < -lam
    · rw [soft_threshold_of_lt lam c hl hlt]
      set t : ℚ := (c + lam) / a with htdef
      have ht : a * t = c + lam := by field_simp [htdef]
      have htneg : t < 0 := div_neg_of_neg_of_pos (by linarith) ha
      rw [abs_of_neg htneg]
      have h1 : lam * (-u) ≤ lam * |u| := mul_le_mul_of_nonneg_left (neg_le_abs u) hl
      have h8 : 0 ≤ a * (u - t) ^ 2 := mul_nonneg ha.le (sq_nonneg _)
      have h9 : a * (u - t) ^ 2 = a * u ^ 2 - 2 * (a * t) * u + (a * t) * t := by ring
      rw [ht] at h9
      have e1 : (1 / 2) * a * t ^ 2 = (1 / 2) * ((a * t) * t) := by ring
      rw [ht] at e1
      nlinarith [h8, h9, h1, e1]
    · have habs : |c| ≤ lam := abs_le.mpr ⟨by linarith, by linarith⟩
      rw [soft_threshold_of_abs_le lam c habs]
      rw [zero_div, abs_zero]
      have h1 : c * u ≤ lam * |u| := by
        calc c * u ≤ |c * u| := le_abs_self _
          _ = |c| * |u| := abs_mul c u
          _ ≤ lam * |u| := mul_le_mul_of_nonneg_right habs (abs_nonneg u)
      have h2 : 0 ≤ (1 / 2) * a * u ^ 2 := by positivity
      nlinarith [h1, h2]

lemma coordinate_update_formula (lam1 lam2 xij zetaj : ℚ) (xj r : List ℚ) (bj : ℚ)
    (hd : dot xj xj + lam2 ≠ 0) :
    coordinate_update lam1 lam2 xij zetaj xj r bj
      = xij + soft_threshold lam1
          ((dot xj r + bj * dot xj xj) + lam2 * zetaj - xij * (dot xj xj + lam2))
          / (dot xj xj + lam2) := by
  simp only [coordinate_update]
  rw [if_neg hd]
  field_simp

lemma objectiveAt_expand (X : List (List ℚ)) (y b r : List ℚ)
    (lam1 lam2 xij zetaj : ℚ) (j : ℕ)
    (hy : y.length = X.length) (hj : j < b.length)
    (hr : r = vsub y (matVec X b)) :
    ∀ t : ℚ, objectiveAt X y b lam1 lam2 xij zetaj j t
      = (1 / 2) * (dot (col X j) (col X j) + lam2) * (t - xij) ^ 2
        - ((dot (col X j) r + b.getD j 0 * dot (col X j) (col X j))
            + lam2 * zetaj - xij * (dot (col X j) (col X j) + lam2)) * (t - xij)
        + lam1 * |t - xij|
        + ((1 / 2) * (normSq r - 2 * (xij - b.getD j 0) * dot (col X j) r
              + (xij - b.getD j 0) ^ 2 * dot (col X j) (col X j))
            + (lam2 / 2) * (xij - zetaj) ^ 2) := by
  have hrlen : r.length = X.length := by
    rw [hr, vsub_length, matVec_length, hy]
    exact min_self _
  have hxlen : (col X j).length = r.length := by
    rw [col_length, hrlen]
  intro t
  unfold objectiveAt
  rw [vsub_matVec_set X y b j t hj, ← hr,
    normSq_sub_smul (col X j) r (t - b.getD j 0) hxlen]
  ring

lemma quad_min_shift (aa cc lam1 K xij : ℚ) (ha : 0 < aa) (hl1 : 0 ≤ lam1) (v : ℚ) :
    (1 / 2) * aa * ((xij + soft_threshold lam1 cc / aa) - xij) ^ 2
        - cc * ((xij + soft_threshold lam1 cc / aa) - xij)
        + lam1 * |(xij + soft_threshold lam1 cc / aa) - xij| + K
      ≤ (1 / 2) * aa * (v - xij) ^ 2 - cc * (v - xij) + lam1 * |v - xij| + K := by
  have h3 : (xij + soft_threshold lam1 cc / aa) - xij = soft_threshold lam1 cc / aa := by
    ring
  rw [h3]
  linarith [soft_threshold_min aa lam1 cc ha hl1 (v - xij)]

/-- C1.  For every coordinate `j` whose column satisfies
`dot X_j X_j + lam2 > 0` (and nonnegative L1 weight, as guaranteed by
`lambda_total >= 0` and `alpha in [0,1]`), the value produced by one
coordinate update - shift the unpenalized OLS update by the L2 target
scaled by `lam2`, soft-threshold with threshold `lam1` centered at the
L1 target, divide by `dot X_j X_j + lam2` - is the coordinate-wise
minimizer of the penalized least-squares objective restricted to
coordinate `j`, whenever the residual invariant `r = y - X b` holds. -/
theorem kernel_produces_coordinatewise_minimizer
    (X : List (List ℚ)) (y b r : List ℚ) (lam1 lam2 xij zetaj : ℚ) (j : ℕ)
    (hy : y.length = X.length) (hj : j < b.length)
    (hr : r = vsub y (matVec X b))
    (hd : 0 < dot (col X j) (col X j) + lam2) (hl1 : 0 ≤ lam1) :
    ∀ v : ℚ,
      objectiveAt X y b lam1 lam2 xij zetaj j
          (coordinate_update lam1 lam2 xij zetaj (col X j) r (b.getD j 0))
        ≤ objectiveAt X y b lam1 lam2 xij zetaj j v := by
  intro v
  have hexp := objectiveAt_expand X y b r lam1 lam2 xij zetaj j hy hj hr
  rw [coordinate_update_formula lam1 lam2 xij zetaj (col X j) r (b.getD j 0)
    (ne_of_gt hd)]
  rw [hexp, hexp]
  exact quad_min_shift _ _ _ _ _ hd hl1 v

/-- Witness for C1 at a concrete instance: design matrix `[[1]]`,
target `[2]`, current coefficients `[0]`, penalties `lam1 = lam2 = 1`,
zero targets, trial value `v = 3`. -/
theorem kernel_produces_coordinatewise_minimizer_witness :
    objectiveAt [[1]] [2] [0] 1 1 0 0 0
        (coordinate_update 1 1 0 0 (col [[1]] 0) [2] (([0] : List ℚ).getD 0 0))
      ≤ objectiveAt [[1]] [2] [0] 1 1 0 0 0 3 :=
  kernel_produces_coordinatewise_minimizer [[1]] [2] [0] [2] 1 1 0 0 0
    (by decide) (by decide) (by norm_num [vsub, matVec, dot])
    (by norm_num [col, dot]) (by norm_num) 3

/-- C2.  The residual invariant `r = y - X beta`: the `beta` setter
re-establishes it after assigning any coefficient vector, and a single
coordinate update (kernel plus incremental residual maintenance)
preserves it - if it holds on entry it holds on exit, for every
coordinate and every penalty configuration. -/
theorem residual_invariant_maintained (R : Regression) (value : List ℚ)
    (X : List (List ℚ)) (y b r : List ℚ) (lam1 lam2 : ℚ) (xi zeta : List ℚ)
    (j : ℕ) (hj : j < b.length) (hr : r = vsub y (matVec X b)) :
    (R.setBeta value).r
        = vsub (R.setBeta value).y
            (matVec (R.setBeta value).X (R.setBeta value).beta)
      ∧ (coord_step X lam1 lam2 xi zeta ⟨b, r⟩ j).1.r
        = vsub y (matVec X ((coord_step X lam1 lam2 xi zeta ⟨b, r⟩ j).1.beta)) := by
  constructor
  · rfl
  · simp only [coord_step]
    rw [hr]
    exact (vsub_matVec_set X y b j _ hj).symm

/-- Witness for C2 at a concrete instance. -/
theorem residual_invariant_maintained_witness :
    ((Regression.init [[1]] [3]).setBeta [5]).r
        = vsub ((Regression.init [[1]] [3]).setBeta [5]).y
            (matVec ((Regression.init [[1]] [3]).setBeta [5]).X
              ((Regression.init [[1]] [3]).setBeta [5]).beta)
      ∧ (coord_step [[1]] 0 0 [0] [0] ⟨[0], [2]⟩ 0).1.r
        = vsub [2] (matVec [[1]] ((coord_step [[1]] 0 0 [0] [0] ⟨[0], [2]⟩ 0).1.beta)) :=
  residual_invariant_maintained (Regression.init [[1]] [3]) [5]
    [[1]] [2] [0] [2] 0 0 [0] [0] 0
    (by decide) (by norm_num [vsub, matVec, dot])

/-- C3.  The unified plastic net reuses one single caller-supplied
vector as both the L1 and the L2 target: the in-place and functional
unified solvers coincide with the general plastic net called with
`xi` for both targets, and the class wrapper `fit_unified_plastic_net`
(which passes only `self.xi` to the solver) produces the same buffers
and convergence report as `fit_general_plastic_net` would on an object
whose `zeta` equals its `xi`. -/
theorem unified_reuses_single_target (beta r : List ℚ) (X : List (List ℚ))
    (y xi : List ℚ) (lambda_total alpha tol : ℚ) (max_iter : ℕ) (R : Regression) :
    unified_plastic_net_ beta r X xi lambda_total alpha tol max_iter
        = general_plastic_net_ beta r X xi xi lambda_total alpha tol max_iter
      ∧ unified_plastic_net X y xi lambda_total alpha tol max_iter
        = general_plastic_net X y xi xi lambda_total alpha tol max_iter
      ∧ (R.fit_unified_plastic_net lambda_total alpha tol max_iter).beta
        = (Regression.fit_general_plastic_net { R with zeta := R.xi }
            lambda_total alpha tol max_iter).beta
      ∧ (R.fit_unified_plastic_net lambda_total alpha tol max_iter).r
        = (Regression.fit_general_plastic_net { R with zeta := R.xi }
            lambda_total alpha tol max_iter).r
      ∧ (R.fit_unified_plastic_net lambda_total alpha tol max_iter).converged
        = (Regression.fit_general_plastic_net { R with zeta := R.xi }
            lambda_total alpha tol max_iter).converged
      ∧ (R.fit_unified_plastic_net lambda_total alpha tol max_iter).iter_num
        = (Regression.fit_general_plastic_net { R with zeta := R.xi }
            lambda_total alpha tol max_iter).iter_num :=
  ⟨rfl, rfl, rfl, rfl, rfl, rfl⟩

/-- C4.  Every functional solver equals the in-place solver run on a
fresh zero-initialized coefficient vector with the residual initialized
to `y` (the functional form is delegation), and that initialization
satisfies the in-place precondition: `y - X 0 = y`. -/
theorem functional_equals_inplace_from_zero (v : Variant) (X : List (List ℚ))
    (y xi zeta : List ℚ) (lambda_total alpha tol : ℚ) (max_iter : ℕ)
    (hy : y.length = X.length) :
    runFunctional v X y xi zeta lambda_total alpha tol max_iter
        = (runInPlace v (zeros (numCols X)) y X xi zeta
            lambda_total alpha tol max_iter).2.2.beta
      ∧ vsub y (matVec X (zeros (numCols X))) = y := by
  refine ⟨?_, vsub_matVec_zeros X (numCols X) y hy⟩
  cases v <;> rfl

/-- Witness for C4 at a concrete instance. -/
theorem functional_equals_inplace_from_zero_witness :
    runFunctional Variant.ols [[1]] [1] [] [] 0 0 (1 / 10) 1
        = (runInPlace Variant.ols (zeros (numCols [[1]])) [1] [[1]] [] []
            0 0 (1 / 10) 1).2.2.beta
      ∧ vsub [1] (matVec [[1]] (zeros (numCols [[1]]))) = [1] :=
  functional_equals_inplace_from_zero Variant.ols [[1]] [1] [] [] 0 0 (1 / 10) 1
    (by decide)

/-- C9.  Frame property of every fit method: the design matrix `X`, the
target `y`, and the target vectors `xi` and `zeta` are unchanged by a
fit; only `beta`, `r`, `converged` and `iter_num` are written. -/
theorem fit_preserves_data (v : Variant) (R : Regression)
    (lambda_total alpha tol : ℚ) (max_iter : ℕ) :
    (fitDispatch v R lambda_total alpha tol max_iter).X = R.X
      ∧ (fitDispatch v R lambda_total alpha tol max_iter).y = R.y
      ∧ (fitDispatch v R lambda_total alpha tol max_iter).xi = R.xi
      ∧ (fitDispatch v R lambda_total alpha tol max_iter).zeta = R.zeta := by
  cases v <;> exact ⟨rfl, rfl, rfl, rfl⟩

/-- C10.  The constructor establishes the documented initial state:
zero coefficients of length `D`, residual equal to `y` (hence the
invariant `r = y - X beta` holds), zero targets, `converged = false`
and `iter_num = 0`. -/
theorem constructor_establishes_initial_state (X : List (List ℚ)) (y : List ℚ)
    (hy : y.length = X.length) :
    (Regression.init X y).beta = zeros (numCols X)
      ∧ (Regression.init X y).r = y
      ∧ (Regression.init X y).r
        = vsub (Regression.init X y).y
            (matVec (Regression.init X y).X (Regression.init X y).beta)
      ∧ (Regression.init X y).xi = zeros (numCols X)
      ∧ (Regression.init X y).zeta = zeros (numCols X)
      ∧ (Regression.init X y).converged = false
      ∧ (Regression.init X y).iter_num = 0 :=
  ⟨rfl, vsub_matVec_zeros X (numCols X) y hy, rfl, rfl, rfl, rfl, rfl⟩

/-- Witness for C10 at a concrete instance. -/
theorem constructor_establishes_initial_state_witness :
    (Regression.init [[1, 2]] [5]).beta = zeros (numCols [[1, 2]])
      ∧ (Regression.init [[1, 2]] [5]).r = [5]
      ∧ (Regression.init [[1, 2]] [5]).r
        = vsub (Regression.init [[1, 2]] [5]).y
            (matVec (Regression.init [[1, 2]] [5]).X
              (Regression.init [[1, 2]] [5]).beta)
      ∧ (Regression.init [[1, 2]] [5]).xi = zeros (numCols [[1, 2]])
      ∧ (Regression.init [[1, 2]] [5]).zeta = zeros (numCols [[1, 2]])
      ∧ (Regression.init [[1, 2]] [5]).converged = false
      ∧ (Regression.init [[1, 2]] [5]).iter_num = 0 :=
  constructor_establishes_initial_state [[1, 2]] [5] (by decide)

/-! ## Convergence monitor characterization -/

lemma stateAfter_shift {σ : Type} (step : σ → σ × ℚ) (s : σ) :
    ∀ n, stateAfter step s (n + 1) = stateAfter step (step s).1 n := by
  intro n
  induction n with
  | zero => rfl
  | succ m ih =>
      show (step (stateAfter step s (m + 1))).1 = (step (stateAfter step (step s).1 m)).1
      rw [ih]

lemma passDelta_shift {σ : Type} (step : σ → σ × ℚ) (s : σ) (n : ℕ) :
    passDelta step s (n + 1) = passDelta step (step s).1 n := by
  unfold passDelta
  rw [stateAfter_shift]

lemma loopGo_iter_le {σ : Type} (step : σ → σ × ℚ) (tol : ℚ) :
    ∀ (fuel : ℕ) (s : σ) (done : ℕ),
      (loopGo step tol fuel s done).2.1 ≤ done + fuel := by
  intro fuel
  induction fuel with
  | zero => intro s done; simp [loopGo]
  | succ n ih =>
      intro s done
      by_cases h : (step s).2 < tol
      · simp only [loopGo, if_pos h]
        omega
      · simp only [loopGo, if_neg h]
        exact le_trans (ih (step s).1 (done + 1)) (by omega)

lemma loopGo_false_iter {σ : Type} (step : σ → σ × ℚ) (tol : ℚ) :
    ∀ (fuel : ℕ) (s : σ) (done : ℕ),
      (loopGo step tol fuel s done).1 = false →
      (loopGo step tol fuel s done).2.1 = done + fuel := by
  intro fuel
  induction fuel with
  | zero => intro s done _; simp [loopGo]
  | succ n ih =>
      intro s done hfalse
      by_cases h : (step s).2 < tol
      · simp [loopGo, if_pos h] at hfalse
      · simp only [loopGo, if_neg h] at hfalse ⊢
        rw [ih (step s).1 (done + 1) hfalse]
        omega

lemma loopGo_true_iff {σ : Type} (step : σ → σ × ℚ) (tol : ℚ) :
    ∀ (fuel : ℕ) (s : σ) (done : ℕ),
      (loopGo step tol fuel s done).1 = true ↔
      ∃ k, k < fuel ∧ passDelta step s k < tol := by
  intro fuel
  induction fuel with
  | zero => intro s done; simp [loopGo]
  | succ n ih =>
      intro s done
      by_cases h : (step s).2 < tol
      · simp only [loopGo, if_pos h]
        exact ⟨fun _ => ⟨0, Nat.succ_pos n, h⟩, fun _ => by trivial⟩
      · simp only [loopGo, if_neg h]
        rw [ih (step s).1 (done + 1)]
        constructor
        · rintro ⟨k, hk, hd⟩
          refine ⟨k + 1, by omega, ?_⟩
          rw [passDelta_shift]
          exact hd
        · rintro ⟨k, hk, hd⟩
          cases k with
          | zero => exact absurd hd h
          | succ m =>
              refine ⟨m, by omega, ?_⟩
              rw [← passDelta_shift]
              exact hd

lemma loopGo_true_spec {σ : Type} (step : σ → σ × ℚ) (tol : ℚ) :
    ∀ (fuel : ℕ) (s : σ) (done : ℕ),
      (loopGo step tol fuel s done).1 = true →
      ∃ k, k < fuel ∧ (loopGo step tol fuel s done).2.1 = done + k + 1
        ∧ passDelta step s k < tol
        ∧ ∀ m, m < k → ¬ passDelta step s m < tol := by
  intro fuel
  induction fuel with
  | zero => intro s done ht; simp [loopGo] at ht
  | succ n ih =>
      intro s done ht
      by_cases h : (step s).2 < tol
      · refine ⟨0, Nat.succ_pos n, ?_, h, fun m hm => absurd hm (by omega)⟩
        simp [loopGo, if_pos h]
      · simp only [loopGo, if_neg h] at ht ⊢
        obtain ⟨k, hk, hiter, hd, hmin⟩ := ih (step s).1 (done + 1) ht
        refine ⟨k + 1, by omega, by omega, ?_, ?_⟩
        · rw [passDelta_shift]
          exact hd
        · intro m hm
          cases m with
          | zero => exact h
          | succ m' =>
              rw [passDelta_shift]
              exact hmin m' (by omega)

lemma runInPlace_eq_loopGo (v : Variant) (beta r : List ℚ) (X : List (List ℚ))
    (xi zeta : List ℚ) (lambda_total alpha tol : ℚ) (max_iter : ℕ) :
    runInPlace v beta r X xi zeta lambda_total alpha tol max_iter
      = loopGo (variantStep v X xi zeta lambda_total alpha) tol max_iter ⟨beta, r⟩ 0 := by
  cases v <;> rfl

/-- C5.  Every in-place fit, for every variant, returns the pair
`(converged, iter_num)` as a total function (non-convergence is a
returned flag, never an error): `converged = true` exactly when some
pass's maximum absolute coefficient change fell below `tol` within the
budget; in that case `iter_num = k + 1` where pass `k + 1` is the first
pass meeting tolerance; and `converged = false` means exactly
`max_iter` passes completed without meeting tolerance, with
`iter_num = max_iter`. -/
theorem fit_returns_convergence_report (v : Variant) (beta r : List ℚ)
    (X : List (List ℚ)) (xi zeta : List ℚ) (lambda_total alpha tol : ℚ)
    (max_iter : ℕ) :
    ((runInPlace v beta r X xi zeta lambda_total alpha tol max_iter).1 = true ↔
      ∃ k, k < max_iter ∧
        passDelta (variantStep v X xi zeta lambda_total alpha) ⟨beta, r⟩ k < tol)
    ∧ ((runInPlace v beta r X xi zeta lambda_total alpha tol max_iter).1 = false →
        (runInPlace v beta r X xi zeta lambda_total alpha tol max_iter).2.1 = max_iter)
    ∧ ((runInPlace v beta r X xi zeta lambda_total alpha tol max_iter).1 = true →
        ∃ k, k < max_iter ∧
          (runInPlace v beta r X xi zeta lambda_total alpha tol max_iter).2.1 = k + 1
          ∧ passDelta (variantStep v X xi zeta lambda_total alpha) ⟨beta, r⟩ k < tol
          ∧ ∀ m, m < k →
              ¬ passDelta (variantStep v X xi zeta lambda_total alpha) ⟨beta, r⟩ m < tol) := by
  rw [runInPlace_eq_loopGo]
  refine ⟨loopGo_true_iff (variantStep v X xi zeta lambda_total alpha) tol max_iter
    (⟨beta, r⟩ : SolveState) 0, ?_, ?_⟩
  · intro h
    have := loopGo_false_iter (variantStep v X xi zeta lambda_total alpha) tol
      max_iter ⟨beta, r⟩ 0 h
    omega
  · intro h
    obtain ⟨k, hk, hiter, hd, hmin⟩ := loopGo_true_spec
      (variantStep v X xi zeta lambda_total alpha) tol max_iter ⟨beta, r⟩ 0 h
    exact ⟨k, hk, by omega, hd, hmin⟩

/-! ## Zero-variance columns -/

lemma coord_step_beta_length (X : List (List ℚ)) (lam1 lam2 : ℚ) (xi zeta : List ℚ)
    (s : SolveState) (j : ℕ) :
    ((coord_step X lam1 lam2 xi zeta s j).1).beta.length = s.beta.length := by
  simp [coord_step]

lemma foldl_passStep_beta_length (X : List (List ℚ)) (lam1 lam2 : ℚ)
    (xi zeta : List ℚ) :
    ∀ (L : List ℕ) (acc : SolveState × ℚ),
      ((L.foldl (passStep X lam1 lam2 xi zeta) acc).1).beta.length
        = acc.1.beta.length := by
  intro L
  induction L with
  | nil => intro acc; rfl
  | cons k L' ih =>
      intro acc
      rw [List.foldl_cons, ih]
      exact coord_step_beta_length X lam1 lam2 xi zeta acc.1 k

lemma foldl_passStep_getD_not_mem (X : List (List ℚ)) (lam1 lam2 : ℚ)
    (xi zeta : List ℚ) :
    ∀ (L : List ℕ) (acc : SolveState × ℚ) (j : ℕ), j ∉ L →
      ((L.foldl (passStep X lam1 lam2 xi zeta) acc).1).beta.getD j 0
        = acc.1.beta.getD j 0 := by
  intro L
  induction L with
  | nil => intro acc j _; rfl
  | cons k L' ih =>
      intro acc j hj
      rw [List.foldl_cons, ih _ j (fun h => hj (List.mem_cons_of_mem k h))]
      exact getD_set_ne acc.1.beta k j _ (fun he => hj (he ▸ List.mem_cons_self k L'))

lemma coordinate_update_zero_col (lam2 zetaj : ℚ) (xj r : List ℚ) (bj : ℚ)
    (hcol : ∀ a ∈ xj, a = 0) :
    coordinate_update 0 lam2 0 zetaj xj r bj = zetaj := by
  have hsq : dot xj xj = 0 := dot_eq_zero_left xj xj hcol
  have hxr : dot xj r = 0 := dot_eq_zero_left xj r hcol
  simp only [coordinate_update, hsq, hxr, zero_add, mul_zero, add_zero, zero_mul,
    sub_zero]
  by_cases h : lam2 = 0
  · rw [if_pos h]
  · rw [if_neg h, soft_threshold_zero_lam]
    field_simp

/-- C6.  Degenerate (zero-variance) coordinates: whenever
`dot X_j X_j + lam2 = 0` the kernel performs no division and holds the
coordinate at its target, and concretely, under the plastic-ridge
penalty (`lam1 = 0`), a column of `X` that is all zeros leaves the
corresponding coefficient exactly equal to the L2 target `zeta_j` after
one full pass, for every value of `lambda_total`. -/
theorem zero_variance_column_held_at_target (X : List (List ℚ))
    (zeta beta r : List ℚ) (lambda_total : ℚ) (j : ℕ)
    (hj : j < numCols X) (hjb : j < beta.length)
    (hcol : ∀ a ∈ col X j, a = 0) :
    (∀ (lam1 lam2 xij zetaj : ℚ) (xj rr : List ℚ) (bj : ℚ),
        dot xj xj + lam2 = 0 →
        coordinate_update lam1 lam2 xij zetaj xj rr bj = zetaj)
    ∧ ((one_pass X 0 lambda_total (zeros (numCols X)) zeta
          ⟨beta, r⟩).1.beta).getD j 0 = zeta.getD j 0 := by
  constructor
  · intro lam1 lam2 xij zetaj xj rr bj h
    simp [coordinate_update, h]
  · have hD : numCols X = j + 1 + (numCols X - (j + 1)) := by omega
    have hsplit : List.range (numCols X)
        = (List.range j ++ [j])
            ++ (List.range (numCols X - (j + 1))).map ((j + 1) + ·) := by
      conv_lhs => rw [hD]
      rw [List.range_add]
      congr 1
      exact List.range_succ j
    simp only [one_pass]
    rw [hsplit, List.foldl_append, List.foldl_append]
    rw [foldl_passStep_getD_not_mem X 0 lambda_total (zeros (numCols X)) zeta _ _ j
      (by
        intro hmem
        obtain ⟨m, _, hm⟩ := List.mem_map.mp hmem
        omega)]
    rw [List.foldl_cons, List.foldl_nil]
    simp only [passStep, coord_step]
    rw [getD_zeros, coordinate_update_zero_col lambda_total (zeta.getD j 0)
      (col X j) _ _ hcol]
    exact getD_set_self _ j _ (by
      rw [foldl_passStep_beta_length]
      exact hjb)

/-- Witness for C6 at a concrete instance: second column of `X` is
identically zero, `zeta = [0, 7]`, `lambda_total = 3`. -/
theorem zero_variance_column_held_at_target_witness :
    (∀ (lam1 lam2 xij zetaj : ℚ) (xj rr : List ℚ) (bj : ℚ),
        dot xj xj + lam2 = 0 →
        coordinate_update lam1 lam2 xij zetaj xj rr bj = zetaj)
    ∧ ((one_pass [[1, 0]] 0 3 (zeros (numCols [[1, 0]])) [0, 7]
          ⟨[0, 0], [2]⟩).1.beta).getD 1 0 = ([0, 7] : List ℚ).getD 1 0 :=
  zero_variance_column_held_at_target [[1, 0]] [0, 7] [0, 0] [2] 3 1
    (by decide) (by decide) (by norm_num [col])

/-! ## Target-shift conjugacy -/

lemma loopGo_succ {σ : Type} (step : σ → σ × ℚ) (tol : ℚ) (fuel : ℕ) (s : σ)
    (done : ℕ) :
    loopGo step tol (fuel + 1) s done
      = if (step s).2 < tol then (true, done + 1, (step s).1)
        else loopGo step tol fuel (step s).1 (done + 1) := rfl

lemma getD_vadd (a : List ℚ) : ∀ (b : List ℚ) (j : ℕ), a.length = b.length →
    (vadd a b).getD j 0 = a.getD j 0 + b.getD j 0 := by
  induction a with
  | nil =>
      intro b j h
      have : b = [] := List.length_eq_zero.mp h.symm
      subst this
      show (0 : ℚ) = 0 + 0
      ring
  | cons x as ih =>
      intro b j h
      cases b with
      | nil => simp at h
      | cons z bs =>
          cases j with
          | zero => rfl
          | succ m => exact ih bs m (by simpa using h)

lemma set_vadd (a : List ℚ) : ∀ (b : List ℚ) (j : ℕ) (v : ℚ), a.length = b.length →
    (vadd a b).set j (v + b.getD j 0) = vadd (a.set j v) b := by
  induction a with
  | nil =>
      intro b j v h
      have : b = [] := List.length_eq_zero.mp h.symm
      subst this
      rfl
  | cons x as ih =>
      intro b j v h
      cases b with
      | nil => simp at h
      | cons z bs =>
          cases j with
          | zero => rfl
          | succ m =>
              show (x + z) :: (vadd as bs).set m (v + bs.getD m 0)
                  = (x + z) :: vadd (as.set m v) bs
              rw [ih bs m v (by simpa using h)]

lemma coordinate_update_shift_ridge (lam2 tj : ℚ) (xj r : List ℚ) (bj : ℚ) :
    coordinate_update 0 lam2 0 tj xj r (bj + tj)
      = coordinate_update 0 lam2 0 0 xj r bj + tj := by
  simp only [coordinate_update, soft_threshold_zero_lam, zero_mul, zero_add,
    mul_zero, add_zero, sub_zero]
  by_cases hd : dot xj xj + lam2 = 0
  · rw [if_pos hd, if_pos hd]
    ring
  · rw [if_neg hd, if_neg hd]
    field_simp
    ring

lemma coordinate_update_shift_lasso (lam1 tj : ℚ) (xj r : List ℚ) (bj : ℚ)
    (hsq : dot xj xj ≠ 0) :
    coordinate_update lam1 0 tj 0 xj r (bj + tj)
      = coordinate_update lam1 0 0 0 xj r bj + tj := by
  simp only [coordinate_update, mul_zero, add_zero, zero_mul, sub_zero, zero_add]
  rw [if_neg hsq, if_neg hsq]
  rw [show dot xj r + (bj + tj) * dot xj xj - tj * dot xj xj
      = dot xj r + bj * dot xj xj from by ring]
  field_simp
  ring

lemma coord_step_shift_ridge (X : List (List ℚ)) (t : List ℚ) (lam2 : ℚ)
    (s : SolveState) (j : ℕ) (h : s.beta.length = t.length) :
    coord_step X 0 lam2 (zeros (numCols X)) t ⟨vadd s.beta t, s.r⟩ j
      = (⟨vadd ((coord_step X 0 lam2 (zeros (numCols X)) (zeros (numCols X)) s j).1).beta t,
            ((coord_step X 0 lam2 (zeros (numCols X)) (zeros (numCols X)) s j).1).r⟩,
         (coord_step X 0 lam2 (zeros (numCols X)) (zeros (numCols X)) s j).2) := by
  simp only [coord_step]
  rw [getD_vadd s.beta t j h, getD_zeros]
  rw [coordinate_update_shift_ridge lam2 (t.getD j 0) (col X j) s.r (s.beta.getD j 0)]
  rw [show coordinate_update 0 lam2 0 0 (col X j) s.r (s.beta.getD j 0) + t.getD j 0
        - (s.beta.getD j 0 + t.getD j 0)
      = coordinate_update 0 lam2 0 0 (col X j) s.r (s.beta.getD j 0)
        - s.beta.getD j 0 from by ring]
  rw [set_vadd s.beta t j _ h]

lemma coord_step_shift_lasso (X : List (List ℚ)) (t : List ℚ) (lam1 : ℚ)
    (s : SolveState) (j : ℕ) (h : s.beta.length = t.length)
    (hsq : dot (col X j) (col X j) ≠ 0) :
    coord_step X lam1 0 t (zeros (numCols X)) ⟨vadd s.beta t, s.r⟩ j
      = (⟨vadd ((coord_step X lam1 0 (zeros (numCols X)) (zeros (numCols X)) s j).1).beta t,
            ((coord_step X lam1 0 (zeros (numCols X)) (zeros (numCols X)) s j).1).r⟩,
         (coord_step X lam1 0 (zeros (numCols X)) (zeros (numCols X)) s j).2) := by
  simp only [coord_step]
  rw [getD_vadd s.beta t j h, getD_zeros]
  rw [coordinate_update_shift_lasso lam1 (t.getD j 0) (col X j) s.r (s.beta.getD j 0) hsq]
  rw [show coordinate_update lam1 0 0 0 (col X j) s.r (s.beta.getD j 0) + t.getD j 0
        - (s.beta.getD j 0 + t.getD j 0)
      = coordinate_update lam1 0 0 0 (col X j) s.r (s.beta.getD j 0)
        - s.beta.getD j 0 from by ring]
  rw [set_vadd s.beta t j _ h]

lemma one_pass_beta_length (X : List (List ℚ)) (lam1 lam2 : ℚ) (xi zeta : List ℚ)
    (s : SolveState) :
    ((one_pass X lam1 lam2 xi zeta s).1).beta.length = s.beta.length := by
  simp only [one_pass]
  exact foldl_passStep_beta_length X lam1 lam2 xi zeta (List.range (numCols X)) (s, 0)

lemma foldl_passStep_shift_ridge (X : List (List ℚ)) (t : List ℚ) (lam2 : ℚ) :
    ∀ (L : List ℕ) (s : SolveState) (d : ℚ), s.beta.length = t.length →
      L.foldl (passStep X 0 lam2 (zeros (numCols X)) t) (⟨vadd s.beta t, s.r⟩, d)
        = ((⟨vadd ((L.foldl (passStep X 0 lam2 (zeros (numCols X)) (zeros (numCols X)))
                (s, d)).1).beta t,
              ((L.foldl (passStep X 0 lam2 (zeros (numCols X)) (zeros (numCols X)))
                (s, d)).1).r⟩ : SolveState),
           (L.foldl (passStep X 0 lam2 (zeros (numCols X)) (zeros (numCols X)))
              (s, d)).2) := by
  intro L
  induction L with
  | nil => intro s d _; rfl
  | cons j L' ih =>
      intro s d h
      rw [List.foldl_cons, List.foldl_cons]
      simp only [passStep]
      rw [coord_step_shift_ridge X t lam2 s j h]
      exact ih ((coord_step X 0 lam2 (zeros (numCols X)) (zeros (numCols X)) s j).1)
        (max d ((coord_step X 0 lam2 (zeros (numCols X)) (zeros (numCols X)) s j).2))
        (by rw [coord_step_beta_length]; exact h)

lemma foldl_passStep_shift_lasso (X : List (List ℚ)) (t : List ℚ) (lam1 : ℚ) :
    ∀ (L : List ℕ) (s : SolveState) (d : ℚ), s.beta.length = t.length →
      (∀ j ∈ L, dot (col X j) (col X j) ≠ 0) →
      L.foldl (passStep X lam1 0 t (zeros (numCols X))) (⟨vadd s.beta t, s.r⟩, d)
        = ((⟨vadd ((L.foldl (passStep X lam1 0 (zeros (numCols X)) (zeros (numCols X)))
                (s, d)).1).beta t,
              ((L.foldl (passStep X lam1 0 (zeros (numCols X)) (zeros (numCols X)))
                (s, d)).1).r⟩ : SolveState),
           (L.foldl (passStep X lam1 0 (zeros (numCols X)) (zeros (numCols X)))
              (s, d)).2) := by
  intro L
  induction L with
  | nil => intro s d _ _; rfl
  | cons j L' ih =>
      intro s d h hL
      rw [List.foldl_cons, List.foldl_cons]
      simp only [passStep]
      rw [coord_step_shift_lasso X t lam1 s j h (hL j (List.mem_cons_self j L'))]
      exact ih ((coord_step X lam1 0 (zeros (numCols X)) (zeros (numCols X)) s j).1)
        (max d ((coord_step X lam1 0 (zeros (numCols X)) (zeros (numCols X)) s j).2))
        (by rw [coord_step_beta_length]; exact h)
        (fun k hk => hL k (List.mem_cons_of_mem j hk))

lemma one_pass_shift_ridge (X : List (List ℚ)) (t : List ℚ) (lam2 : ℚ)
    (s : SolveState) (h : s.beta.length = t.length) :
    one_pass X 0 lam2 (zeros (numCols X)) t ⟨vadd s.beta t, s.r⟩
      = ((⟨vadd ((one_pass X 0 lam2 (zeros (numCols X)) (zeros (numCols X)) s).1).beta t,
            ((one_pass X 0 lam2 (zeros (numCols X)) (zeros (numCols X)) s).1).r⟩ : SolveState),
         (one_pass X 0 lam2 (zeros (numCols X)) (zeros (numCols X)) s).2) := by
  simp only [one_pass]
  exact foldl_passStep_shift_ridge X t lam2 (List.range (numCols X)) s 0 h

lemma one_pass_shift_lasso (X : List (List ℚ)) (t : List ℚ) (lam1 : ℚ)
    (s : SolveState) (h : s.beta.length = t.length)
    (hX : ∀ j, j < numCols X → dot (col X j) (col X j) ≠ 0) :
    one_pass X lam1 0 t (zeros (numCols X)) ⟨vadd s.beta t, s.r⟩
      = ((⟨vadd ((one_pass X lam1 0 (zeros (numCols X)) (zeros (numCols X)) s).1).beta t,
            ((one_pass X lam1 0 (zeros (numCols X)) (zeros (numCols X)) s).1).r⟩ : SolveState),
         (one_pass X lam1 0 (zeros (numCols X)) (zeros (numCols X)) s).2) := by
  simp only [one_pass]
  exact foldl_passStep_shift_lasso X t lam1 (List.range (numCols X)) s 0 h
    (fun j hj => hX j (List.mem_range.mp hj))

lemma loopGo_conj {σ : Type} (stepP stepC : σ → σ × ℚ) (g : σ → σ) (I : σ → Prop)
    (hI : ∀ s, I s → I (stepC s).1)
    (hcomm : ∀ s, I s → stepP (g s) = (g (stepC s).1, (stepC s).2)) (tol : ℚ) :
    ∀ (fuel : ℕ) (s : σ) (done : ℕ), I s →
      loopGo stepP tol fuel (g s) done
        = ((loopGo stepC tol fuel s done).1, (loopGo stepC tol fuel s done).2.1,
           g (loopGo stepC tol fuel s done).2.2) := by
  intro fuel
  induction fuel with
  | zero => intro s done _; rfl
  | succ n ih =>
      intro s done hs
      rw [loopGo_succ, loopGo_succ, hcomm s hs]
      dsimp only
      by_cases hlt : (stepC s).2 < tol
      · rw [if_pos hlt, if_pos hlt]
      · rw [if_neg hlt, if_neg hlt]
        exact ih (stepC s).1 (done + 1) (hI s hs)

/-- C8 (amended).  The target-shift identity holds exactly at the level
of the solver dynamics: the in-place plastic ridge solver with L2
target `t`, started from coefficients shifted by `t`, runs in lockstep
with the classic ridge solver (same residual trajectory, same per-pass
`max_delta`, hence the same convergence flag and pass count) and
returns its coefficients shifted by `t`; the same holds for plastic
lasso versus classic lasso when no column of `X` has zero squared norm.
Consequently converged fits correspond exactly under the shift; finite
trajectories from zero initialization need only agree approximately. -/
theorem target_shift_conjugacy (X : List (List ℚ)) (t beta r : List ℚ)
    (lambda_total tol : ℚ) (max_iter : ℕ) (h : beta.length = t.length) :
    plastic_ridge_ (vadd beta t) r X t lambda_total tol max_iter
        = ((ridge_ beta r X lambda_total tol max_iter).1,
           (ridge_ beta r X lambda_total tol max_iter).2.1,
           ⟨vadd (ridge_ beta r X lambda_total tol max_iter).2.2.beta t,
            (ridge_ beta r X lambda_total tol max_iter).2.2.r⟩)
      ∧ ((∀ j, j < numCols X → dot (col X j) (col X j) ≠ 0) →
          plastic_lasso_ (vadd beta t) r X t lambda_total tol max_iter
            = ((lasso_ beta r X lambda_total tol max_iter).1,
               (lasso_ beta r X lambda_total tol max_iter).2.1,
               ⟨vadd (lasso_ beta r X lambda_total tol max_iter).2.2.beta t,
                (lasso_ beta r X lambda_total tol max_iter).2.2.r⟩)) := by
  constructor
  · simp only [plastic_ridge_, ridge_, cd_run]
    exact loopGo_conj (one_pass X 0 lambda_total (zeros (numCols X)) t)
      (one_pass X 0 lambda_total (zeros (numCols X)) (zeros (numCols X)))
      (fun s => ⟨vadd s.beta t, s.r⟩) (fun s => s.beta.length = t.length)
      (fun s hs => by dsimp only; rw [one_pass_beta_length]; exact hs)
      (fun s hs => one_pass_shift_ridge X t lambda_total s hs)
      tol max_iter ⟨beta, r⟩ 0 h
  · intro hX
    simp only [plastic_lasso_, lasso_, cd_run]
    exact loopGo_conj (one_pass X lambda_total 0 t (zeros (numCols X)))
      (one_pass X lambda_total 0 (zeros (numCols X)) (zeros (numCols X)))
      (fun s => ⟨vadd s.beta t, s.r⟩) (fun s => s.beta.length = t.length)
      (fun s hs => by dsimp only; rw [one_pass_beta_length]; exact hs)
      (fun s hs => one_pass_shift_lasso X t lambda_total s hs hX)
      tol max_iter ⟨beta, r⟩ 0 h

/-- Witness for C8 at a concrete instance. -/
theorem target_shift_conjugacy_witness :
    plastic_ridge_ (vadd [0] [2]) [5] [[1]] [2] 1 (1 / 10) 2
        = ((ridge_ [0] [5] [[1]] 1 (1 / 10) 2).1,
           (ridge_ [0] [5] [[1]] 1 (1 / 10) 2).2.1,
           ⟨vadd (ridge_ [0] [5] [[1]] 1 (1 / 10) 2).2.2.beta [2],
            (ridge_ [0] [5] [[1]] 1 (1 / 10) 2).2.2.r⟩)
      ∧ plastic_lasso_ (vadd [0] [2]) [5] [[1]] [2] 1 (1 / 10) 2
        = ((lasso_ [0] [5] [[1]] 1 (1 / 10) 2).1,
           (lasso_ [0] [5] [[1]] 1 (1 / 10) 2).2.1,
           ⟨vadd (lasso_ [0] [5] [[1]] 1 (1 / 10) 2).2.2.beta [2],
            (lasso_ [0] [5] [[1]] 1 (1 / 10) 2).2.2.r⟩) := by
  have H := target_shift_conjugacy [[1]] [2] [0] [5] 1 (1 / 10) 2 (by decide)
  refine ⟨H.1, H.2 ?_⟩
  intro j hj
  have hj1 : j < 1 := hj
  have hj0 : j = 0 := by omega
  subst hj0
  norm_num [col, dot]

/-- C8 counterexample.  The target-shift identity as stated - for every
`X`, `y`, `lambda_total` and target, the plastic fit equals the shifted
classic fit within `1e-4` - fails at `lambda_total = 0` with collinear
columns, already at the spec's default `tol = 1e-8`, `max_iter = 1000`:
on `X = [[1,1]]`, `y = [1]`, `zeta = [0,1]` the plastic ridge fit is
`[1,0]` while the shifted classic ridge fit is `[0,1]`; the first
coefficients differ by 1. -/
theorem target_shift_identity_counterexample :
    1 / 10000 <
      |(plastic_ridge [[1, 1]] [1] [0, 1] 0 (1 / 100000000) 1000).getD 0 0
        - ((ridge [[1, 1]] (vsub [1] (matVec [[1, 1]] [0, 1])) 0
              (1 / 100000000) 1000).getD 0 0
           + ([0, 1] : List ℚ).getD 0 0)| := by
  have hz : zeros (numCols [[1, 1]]) = [0, 0] := rfl
  have e1 : (1000 : ℕ) = 999 + 1 := by norm_num
  have e2 : (999 : ℕ) = 998 + 1 := by norm_num
  have hp1 : one_pass [[1, 1]] 0 0 [0, 0] [0, 1] ⟨[0, 0], [1]⟩ = (⟨[1, 0], [0]⟩, 1) := by
    norm_num [one_pass, numCols, passStep, coord_step, coordinate_update,
      soft_threshold, sgn, col, dot, List.range_succ, abs]
  have hp2 : one_pass [[1, 1]] 0 0 [0, 0] [0, 1] ⟨[1, 0], [0]⟩ = (⟨[1, 0], [0]⟩, 0) := by
    norm_num [one_pass, numCols, passStep, coord_step, coordinate_update,
      soft_threshold, sgn, col, dot, List.range_succ, abs]
  have hP : plastic_ridge [[1, 1]] [1] [0, 1] 0 (1 / 100000000) 1000 = [1, 0] := by
    simp only [plastic_ridge, plastic_ridge_, cd_run, hz]
    rw [e1, loopGo_succ, hp1, if_neg (by norm_num), e2, loopGo_succ, hp2,
      if_pos (by norm_num)]
  have hy : vsub [1] (matVec [[1, 1]] [0, 1]) = [0] := by
    norm_num [vsub, matVec, dot]
  have hp1C : one_pass [[1, 1]] 0 0 [0, 0] [0, 0] ⟨[0, 0], [0]⟩ = (⟨[0, 0], [0]⟩, 0) := by
    norm_num [one_pass, numCols, passStep, coord_step, coordinate_update,
      soft_threshold, sgn, col, dot, List.range_succ, abs]
  have hC : ridge [[1, 1]] (vsub [1] (matVec [[1, 1]] [0, 1])) 0
      (1 / 100000000) 1000 = [0, 0] := by
    simp only [ridge, ridge_, cd_run, hy, hz]
    rw [e1, loopGo_succ, hp1C, if_pos (by norm_num)]
  rw [hP, hC]
  norm_num [List.getD]

/-- C7 counterexample.  A call with `alpha = 2` (outside `[0,1]`) does
not fail fast: the elastic net solver proceeds, performs coordinate
updates (the coefficient buffer moves from `[0]` to `[6]`), and returns
a normal `(converged, iter_num)` report. -/
theorem validation_counterexample :
    (1 : ℚ) < 2
      ∧ (elastic_net_ [0] [10] [[2]] 1 2 (1 / 1000) 5).2.2.beta = [6]
      ∧ (elastic_net_ [0] [10] [[2]] 1 2 (1 / 1000) 5).1 = true
      ∧ (elastic_net_ [0] [10] [[2]] 1 2 (1 / 1000) 5).2.1 = 2 := by
  have hz : zeros (numCols [[2]]) = [0] := rfl
  have e5 : (5 : ℕ) = 4 + 1 := by norm_num
  have e4 : (4 : ℕ) = 3 + 1 := by norm_num
  have hp1 : one_pass [[2]] (2 * 1) ((1 - 2) * 1) [0] [0] ⟨[0], [10]⟩
      = (⟨[6], [-2]⟩, 6) := by
    norm_num [one_pass, numCols, passStep, coord_step, coordinate_update,
      soft_threshold, sgn, col, dot, List.range_succ, abs]
  have hp2 : one_pass [[2]] (2 * 1) ((1 - 2) * 1) [0] [0] ⟨[6], [-2]⟩
      = (⟨[6], [-2]⟩, 0) := by
    norm_num [one_pass, numCols, passStep, coord_step, coordinate_update,
      soft_threshold, sgn, col, dot, List.range_succ, abs]
  have key : elastic_net_ [0] [10] [[2]] 1 2 (1 / 1000) 5 = (true, 2, ⟨[6], [-2]⟩) := by
    simp only [elastic_net_, cd_run, hz]
    rw [e5, loopGo_succ, hp1, if_neg (by norm_num), e4, loopGo_succ, hp2,
      if_pos (by norm_num)]
  exact ⟨by norm_num, by rw [key], by rw [key], by rw [key]⟩

/-- C7 (amended).  No fail-fast validation exists: a call with `alpha`
outside `[0,1]` or `lambda_total < 0` is not rejected - the solver uses
`lam1 = alpha * lambda_total` and `lam2 = (1 - alpha) * lambda_total`
as-is, executes its passes, and returns a normal convergence report:
`iter_num` never exceeds `max_iter`, a `false` flag means exactly
`max_iter` completed passes, and the flag is `true` exactly when some
pass met the tolerance. -/
theorem invalid_parameters_not_rejected (v : Variant) (beta r : List ℚ)
    (X : List (List ℚ)) (xi zeta : List ℚ) (lambda_total alpha tol : ℚ)
    (max_iter : ℕ) (h : 1 < alpha ∨ alpha < 0 ∨ lambda_total < 0) :
    (runInPlace v beta r X xi zeta lambda_total alpha tol max_iter).2.1 ≤ max_iter
      ∧ ((runInPlace v beta r X xi zeta lambda_total alpha tol max_iter).1 = false →
          (runInPlace v beta r X xi zeta lambda_total alpha tol max_iter).2.1 = max_iter)
      ∧ ((runInPlace v beta r X xi zeta lambda_total alpha tol max_iter).1 = true ↔
          ∃ k, k < max_iter ∧
            passDelta (variantStep v X xi zeta lambda_total alpha) ⟨beta, r⟩ k < tol) := by
  rw [runInPlace_eq_loopGo]
  refine ⟨?_, ?_, loopGo_true_iff (variantStep v X xi zeta lambda_total alpha) tol
    max_iter (⟨beta, r⟩ : SolveState) 0⟩
  · have := loopGo_iter_le (variantStep v X xi zeta lambda_total alpha) tol
      max_iter (⟨beta, r⟩ : SolveState) 0
    omega
  · intro hf
    have := loopGo_false_iter (variantStep v X xi zeta lambda_total alpha) tol
      max_iter (⟨beta, r⟩ : SolveState) 0 hf
    omega

/-- Witness for the amended C7 at a concrete invalid call
(`alpha = 2`). -/
theorem invalid_parameters_not_rejected_witness :
    (runInPlace Variant.elasticNetV [0] [10] [[2]] [] [] 1 2 (1 / 1000) 5).2.1 ≤ 5
      ∧ ((runInPlace Variant.elasticNetV [0] [10] [[2]] [] [] 1 2 (1 / 1000) 5).1 = false →
          (runInPlace Variant.elasticNetV [0] [10] [[2]] [] [] 1 2 (1 / 1000) 5).2.1 = 5)
      ∧ ((runInPlace Variant.elasticNetV [0] [10] [[2]] [] [] 1 2 (1 / 1000) 5).1 = true ↔
          ∃ k, k < 5 ∧
            passDelta (variantStep Variant.elasticNetV [[2]] [] [] 1 2)
              ⟨[0], [10]⟩ k < 1 / 1000) :=
  invalid_parameters_not_rejected Variant.elasticNetV [0] [10] [[2]] [] [] 1 2
    (1 / 1000) 5 (Or.inl (by norm_num))

end PlasticNet
